import Mathlib

/-!
# Verification of the g98 log-file extraction engine

Shallow embedding of `src/interfaces/g98/file_parsers.py`: the
`LinkParser` section tracker, the activation window inherited from
`MultiLineParser` (that base class is not part of the sources, so it is
modelled from the specification, as marked below), and the concrete
collectors (`EnergyParser`, `FrequenciesParser`, `MassParser`,
`HessianParser`, `CoordinatesParser`).

Lines are lists of characters, exactly as the external driver feeds them
(Python file iteration keeps the trailing newline).  Python `float` values
are modelled as exact rationals; none of the verified properties depends on
binary rounding.  A Python exception is modelled as `Option.none`.
-/

set_option autoImplicit false

abbrev Line := List Char

abbrev Word := List Char

/-- Characters that Python `str.split()` and the regex class `\s` treat as
whitespace. -/
def wsChar (c : Char) : Bool :=
  c = ' ' || c = '\t' || c = '\n' || c = '\r' || c = '\x0b' || c = '\x0c'

/-- Normalize one Python slice endpoint for a sequence of length `n`:
negative indices count from the end, and both ends are clamped. -/
def pyNorm (n : Nat) (i : Int) : Nat :=
  if i < 0 then ((n : Int) + i).toNat else min i.toNat n

/-- Python slice `s[a:b]` (step 1) on a list of characters. -/
def pySlice (s : List Char) (a b : Int) : List Char :=
  let a2 := pyNorm s.length a
  let b2 := pyNorm s.length b
  (s.drop a2).take (b2 - a2)

/-- Helper for `pySplit`: `acc` is the current word, reversed. -/
def pySplitAux : List Char → List Char → List (List Char)
  | [], acc => if acc.isEmpty then [] else [acc.reverse]
  | c :: rest, acc =>
    if wsChar c then
      if acc.isEmpty then pySplitAux rest []
      else acc.reverse :: pySplitAux rest []
    else pySplitAux rest (c :: acc)

/-- Python `str.split()` with no argument: split on runs of whitespace,
discarding empty words. -/
def pySplit (s : List Char) : List (List Char) := pySplitAux s []

/-- Value of a decimal digit string (most significant first). -/
def natOfDigits (ds : List Char) : Nat :=
  ds.foldl (fun a c => a * 10 + (c.toNat - 48)) 0

/-- Strip leading and trailing whitespace, as Python `int`/`float` do. -/
def stripWS (s : List Char) : List Char :=
  ((s.dropWhile wsChar).reverse.dropWhile wsChar).reverse

/-- Consume an optional sign; returns (isNegative, rest). -/
def takeSign : List Char → Bool × List Char
  | '-' :: r => (true, r)
  | '+' :: r => (false, r)
  | s => (false, s)

/-- Python `int(word)`: optional surrounding whitespace, optional sign, a
nonempty run of digits.  `none` models the `ValueError`. -/
def pyInt (w : Word) : Option Int :=
  let s := stripWS w
  let p := takeSign s
  if p.2.isEmpty then none
  else if p.2.all Char.isDigit then
    some (if p.1 then -(natOfDigits p.2 : Int) else (natOfDigits p.2 : Int))
  else none

/-- The exact rational value `(-1)^neg * mant / 10^k * 10^((-1)^eneg * e)`
of a decimal literal, built with a single `mkRat` (the `Rat` field
operations of the library are `@[irreducible]`, so values are assembled
directly from numerator and denominator to stay kernel-computable). -/
def qVal (neg : Bool) (mant k : Nat) (eneg : Bool) (e : Nat) : ℚ :=
  let n : Int := if neg then -(mant : Int) else (mant : Int)
  if eneg then mkRat n (10 ^ k * 10 ^ e)
  else mkRat (n * ((10 ^ e : Nat) : Int)) (10 ^ k)

/-- Parse the optional exponent part of a float literal and finish;
`neg`/`mant`/`k` describe the mantissa `(-1)^neg * mant / 10^k`. -/
def pyFloatExp (neg : Bool) (mant k : Nat) (s : List Char) : Option ℚ :=
  match s with
  | [] => some (qVal neg mant k false 0)
  | e :: s1 =>
    if e = 'e' || e = 'E' then
      let p := takeSign s1
      let ds := p.2.takeWhile Char.isDigit
      let rest := p.2.dropWhile Char.isDigit
      if ds.isEmpty || !rest.isEmpty then none
      else some (qVal neg mant k p.1 (natOfDigits ds))
    else none

/-- Python `float(word)` restricted to the finite decimal/scientific
literals that occur in these log files, returning an exact rational.
`none` models the `ValueError` on a malformed literal. -/
def pyFloat (w : Word) : Option ℚ :=
  let s := stripWS w
  let p := takeSign s
  let ip := p.2.takeWhile Char.isDigit
  let s2 := p.2.dropWhile Char.isDigit
  match s2 with
  | '.' :: s3 =>
    let fp := s3.takeWhile Char.isDigit
    let s4 := s3.dropWhile Char.isDigit
    if ip.isEmpty && fp.isEmpty then none
    else
      pyFloatExp p.1 (natOfDigits ip * 10 ^ fp.length + natOfDigits fp)
        fp.length s4
  | _ =>
    if ip.isEmpty then none
    else pyFloatExp p.1 (natOfDigits ip) 0 s2

/-- Exact rational multiplication, built with `mkRat` so that it is
kernel-computable (the library's `Rat.mul` is `@[irreducible]`); used for
the `from_angstrom` unit conversion. -/
def ratMul (a b : ℚ) : ℚ := mkRat (a.num * b.num) (a.den * b.den)

/-- `word.replace("D", "e")`: the Fortran exponent marker is normalized
before numeric parsing (`HessianParser.collect`). -/
def replaceDe (w : Word) : Word :=
  w.map (fun c => if c = 'D' then 'e' else c)

/-- `word.find("D") >= 0`: the token-shape test of `HessianParser.collect`. -/
def containsD (w : Word) : Bool := w.any (fun c => c = 'D')

/-- Convenience: the character list of a string literal. -/
def strL (s : String) : List Char := s.toList

/-! ## Hand-compiled matchers for the regular expressions of the source

Each compiled pattern of the source is a concrete regex whose `\d+`, `\s+`
and `\S+` runs alternate with literals, so leftmost matching is
deterministic: every quantified run is the maximal run of its class.  The
matchers below realize exactly that semantics. -/

/-- Match a literal (regex-escaped) character sequence; returns the rest. -/
def chompLit : Word → Line → Option Line
  | [], s => some s
  | _ :: _, [] => none
  | c :: cs, x :: xs => if c = x then chompLit cs xs else none

/-- Regex `\s+`: at least one whitespace character, maximal run. -/
def chompWS : Line → Option Line
  | [] => none
  | c :: cs => if wsChar c then some (cs.dropWhile wsChar) else none

/-- Regex `\S+`: at least one non-whitespace character, maximal run. -/
def chompNonWS : Line → Option Line
  | [] => none
  | c :: cs => if wsChar c then none else some (cs.dropWhile (fun x => !wsChar x))

/-- Regex `\d+`: at least one digit, maximal run. -/
def chompDigits : Line → Option Line
  | [] => none
  | c :: cs => if c.isDigit then some (cs.dropWhile Char.isDigit) else none

/-- Regex `.`: any single character except a newline. -/
def chompAny : Line → Option Line
  | [] => none
  | c :: cs => if c = '\n' then none else some cs

/-- Regex `(?P<g>\S+)`: capture a maximal nonempty non-whitespace run. -/
def grabNonWS : Line → Option (Word × Line)
  | [] => none
  | c :: cs =>
    if wsChar c then none
    else some (c :: cs.takeWhile (fun x => !wsChar x), cs.dropWhile (fun x => !wsChar x))

/-- `re.search`: try the position matcher at each start position, leftmost
first (including the empty suffix). -/
def searchAux {α : Type} (f : Line → Option α) (s : Line) : Option α :=
  match f s with
  | some r => some r
  | none =>
    match s with
    | [] => none
    | _ :: cs => searchAux f cs

/-- Position matcher for `"SCF Done:\s+E\S+\s+=\s+(?P<energy>\S+)\s+A.U."`
(`EnergyParser`).  Returns the captured energy token. -/
def energyMatchAt (s : Line) : Option Word := do
  let s ← chompLit (strL "SCF Done:") s
  let s ← chompWS s
  let s ← chompLit (strL "E") s
  let s ← chompNonWS s
  let s ← chompWS s
  let s ← chompLit (strL "=") s
  let s ← chompWS s
  let (tok, s) ← grabNonWS s
  let s ← chompWS s
  let s ← chompLit (strL "A") s
  let s ← chompAny s
  let s ← chompLit (strL "U") s
  let _ ← chompAny s
  some tok

/-- `self.re.search(line)` of `EnergyParser`. -/
def energySearch (s : Line) : Option Word := searchAux energyMatchAt s

/-- Position matcher for
`"\d+\s+\d+\s+\d+\s+(?P<x>\S+)\s+(?P<y>\S+)\s+(?P<z>\S+)"`
(`CoordinatesParser`). -/
def coordMatchAt (s : Line) : Option (Word × Word × Word) := do
  let s ← chompDigits s
  let s ← chompWS s
  let s ← chompDigits s
  let s ← chompWS s
  let s ← chompDigits s
  let s ← chompWS s
  let (x, s) ← grabNonWS s
  let s ← chompWS s
  let (y, s) ← grabNonWS s
  let s ← chompWS s
  let (z, _) ← grabNonWS s
  some (x, y, z)

/-- `self.re.search(line)` of `CoordinatesParser`. -/
def coordSearch (s : Line) : Option (Word × Word × Word) :=
  searchAux coordMatchAt s

/-- Position matcher for
`"Atom\s+\d+\s+has atomic number\s+\d+\s+and mass\s+(?P<mass>\S+)"`
(`MassParser`). -/
def massMatchAt (s : Line) : Option Word := do
  let s ← chompLit (strL "Atom") s
  let s ← chompWS s
  let s ← chompDigits s
  let s ← chompWS s
  let s ← chompLit (strL "has atomic number") s
  let s ← chompWS s
  let s ← chompDigits s
  let s ← chompWS s
  let s ← chompLit (strL "and mass") s
  let s ← chompWS s
  let (tok, _) ← grabNonWS s
  some tok

/-- `self.re.search(line)` of `MassParser`. -/
def massSearch (s : Line) : Option Word := searchAux massMatchAt s

/-- Does `pat` occur starting at the head of `s`? -/
def leadEq : Word → Line → Bool
  | [], _ => true
  | _ :: _, [] => false
  | p :: ps, c :: cs => p == c && leadEq ps cs

/-- `re.compile(literal).search(line) is not None` for a pattern with no
unescaped metacharacters: substring containment (used for the activator
and deactivator patterns of `HessianParser` and `CoordinatesParser`). -/
def subMatch (pat : Word) (s : Line) : Bool :=
  if leadEq pat s then true
  else
    match s with
    | [] => false
    | _ :: cs => subMatch pat cs

/-! ## The two-level state machine

`LinkParser.parse` (source, lines 42-48) is a section tracker around the
inherited `MultiLineParser.parse`.  The tracker's marker tests and update
order are taken directly from the source; the window logic is modelled from
the specification because `pychem/interfaces/output_parsers.py` is not among
the sources. -/

/-- A per-line accumulation strategy: `start`/`collect`/`stop` are the three
lifecycle callbacks of a concrete parser; `collect` and `stop` return `none`
when the Python code would raise. -/
structure Collector (σ : Type) where
  start : σ → σ
  collect : Line → σ → Option σ
  stop : σ → Option σ

/-- State of the activation window plus the collector accumulator. -/
structure MLP (σ : Type) where
  collecting : Bool
  acc : σ
deriving DecidableEq

/-- Deactivator test: `false` when no deactivator is configured. -/
def dMatch (deact : Option (Line → Bool)) (line : Line) : Bool :=
  match deact with
  | none => false
  | some d => d line

/-- Modelled from the spec: `MultiLineParser.parse`, the activation window
(spec section 4.2); the class itself is not among the sources.  `gate` is
the one-shot gating predicate (`condition`), already evaluated for this
pass; when it is `false`, `start_collecting` is suppressed and the window
stays permanently inactive.  With no activator configured, every line the
tracker forwards is collected; otherwise a deactivator line closes the
episode before the collection check and an activator line opens it after,
so neither marker line is itself collected. -/
def mlpParse {σ : Type} (gate : Bool) (act deact : Option (Line → Bool))
    (C : Collector σ) (line : Line) (st : MLP σ) : Option (MLP σ) :=
  if gate then
    match act with
    | none => (C.collect line st.acc).map (fun a => ⟨st.collecting, a⟩)
    | some a =>
      if st.collecting then
        if dMatch deact line then
          (C.stop st.acc).map (fun s => ⟨false, s⟩)
        else
          (C.collect line st.acc).map (fun s => ⟨true, s⟩)
      else if a line then some ⟨true, C.start st.acc⟩
      else some st
  else some st

/-- State of a `LinkParser`: the section flag `in_link` plus the window. -/
structure Track (σ : Type) where
  in_link : Bool
  mlp : MLP σ
deriving DecidableEq

/-- The body of `LinkParser.parse`, abstracted over the two marker tests:
the exit update to `in_link` happens before the forwarding check, the entry
update after it.  `inner` is `MultiLineParser.parse`. -/
def trackerParse {σ : Type} (isExit isEnter : Line → Bool)
    (inner : Line → MLP σ → Option (MLP σ)) (line : Line) (st : Track σ) :
    Option (Track σ) :=
  let inside1 := if isExit line then false else st.in_link
  let after : Option (Track σ) :=
    if inside1 then (inner line st.mlp).map (fun m => ⟨true, m⟩)
    else some ⟨inside1, st.mlp⟩
  after.map (fun s2 => if isEnter line then ⟨true, s2.mlp⟩ else s2)

/-- `line[:11] == " Leave Link" and line[13:13+len(self.link)] == self.link`
(source, line 43). -/
def leaveMatch (link : Word) (line : Line) : Bool :=
  pySlice line 0 11 == strL " Leave Link" &&
    pySlice line 13 (13 + (link.length : Int)) == link

/-- `line[:8] == " (Enter " and line[-6-len(self.link):-6] == self.link`
(source, line 47). -/
def enterMatch (link : Word) (line : Line) : Bool :=
  pySlice line 0 8 == strL " (Enter " &&
    pySlice line (-(6 + (link.length : Int))) (-6) == link

/-- `LinkParser.parse` for the section identifier `link`. -/
def linkParse {σ : Type} (link : Word) (gate : Bool)
    (act deact : Option (Line → Bool)) (C : Collector σ) :
    Line → Track σ → Option (Track σ) :=
  trackerParse (leaveMatch link) (enterMatch link) (mlpParse gate act deact C)

/-- Feed a list of lines, one at a time, to an extractor step; `none` as
soon as one line raises. -/
def runLines {α : Type} (step : Line → α → Option α) (st : α) :
    List Line → Option α
  | [] => some st
  | l :: ls =>
    match step l st with
    | none => none
    | some st2 => runLines step st2 ls

/-! ## The concrete collectors -/

/-- `EnergyParser`: accumulator is the `energies` list; `collect` appends
the captured SCF energy when the pattern matches (source, lines 205-208).
`start`/`stop` are the default no-ops (modelled from the spec: the scalar
series has no episode side effects). -/
def energyC : Collector (List ℚ) where
  start s := s
  collect line s :=
    match energySearch line with
    | none => some s
    | some w => (pyFloat w).map (fun v => s ++ [v])
  stop s := some s

/-- `FrequenciesParser.collect` (source, lines 107-110): a fixed label
prefix, then the remaining tokens parsed as floats and appended. -/
def freqCollect (pat : Word) (line : Line) (s : List ℚ) : Option (List ℚ) :=
  if pySlice line 0 (pat.length : Int) == pat then
    ((pySplit (line.drop pat.length)).mapM pyFloat).map (fun vs => s ++ vs)
  else some s

/-- `FrequenciesParser` as a collector for a given label prefix. -/
def freqC (pat : Word) : Collector (List ℚ) where
  start s := s
  collect := freqCollect pat
  stop s := some s

/-- `MassParser`: `collect` appends the captured mass on a regex match
(source, lines 142-145); `start_collecting` resets the list (line 140);
`stop_collecting` converts to an array, which is the identity here. -/
def massC : Collector (List ℚ) where
  start _ := []
  collect line s :=
    match massSearch line with
    | none => some s
    | some w => (pyFloat w).map (fun v => s ++ [v])
  stop s := some s

/-- Python list indexing `l[i]` with negative indices from the end;
`none` is the `IndexError`. -/
def pyListGet {α : Type} (l : List α) (i : Int) : Option α :=
  let j : Int := if i < 0 then (l.length : Int) + i else i
  if j < 0 then none
  else if h : j.toNat < l.length then some (l.get ⟨j.toNat, h⟩)
  else none

/-- Update the Python list slot `l[i]` (negative indices from the end) by
`f`; `none` is the `IndexError`. -/
def pyListSet (l : List (List ℚ)) (i : Int) (f : List ℚ → List ℚ) :
    Option (List (List ℚ)) :=
  let j : Int := if i < 0 then (l.length : Int) + i else i
  if j < 0 then none
  else if j.toNat < l.length then some (l.set j.toNat (f (l.getD j.toNat [])))
  else none

/-- Parse the value tokens of a hessian line:
`float(word.replace("D", "e"))` for each word after the row index. -/
def parseVals (ws : List Word) : Option (List ℚ) :=
  ws.mapM (fun w => pyFloat (replaceDe w))

/-- `HessianParser.collect` on the row-list accumulator (source, lines
72-82).  `words[1]` raises `IndexError` on a line with fewer than two
tokens; a second token without `D` is silently ignored; otherwise the row
number decides between appending a new row (`row_number >= len(hessian)`)
and extending the row at Python index `row_number - 1`.  The value words
are parsed with the `D`-to-`e` normalization; a malformed token raises.
(In Python a malformed token can leave earlier words of the same line
already appended before the raise; the raise aborts the pass, so that
partial mutation is unobservable and is not modelled.) -/
def hessCollectRows (line : Line) (rows : List (List ℚ)) :
    Option (List (List ℚ)) :=
  match pySplit line with
  | w0 :: w1 :: rest =>
    if containsD w1 then
      match pyInt w0 with
      | none => none
      | some r =>
        match parseVals (w1 :: rest) with
        | none => none
        | some vs =>
          if r ≥ (rows.length : Int) then some (rows ++ [vs])
          else pyListSet rows (r - 1) (fun row => row ++ vs)
    else some rows
  | _ => none

/-- `Numeric.zeros((n, n))` as a row list. -/
def zerosMat (n : Nat) : List (List ℚ) :=
  List.replicate n (List.replicate n 0)

/-- Assignment `m[i, j] = v` on a square array; `none` is the out-of-range
`IndexError` of the `Numeric` array. -/
def matSet (m : List (List ℚ)) (i j : Nat) (v : ℚ) : Option (List (List ℚ)) :=
  if i < m.length then
    let row := m.getD i []
    if j < row.length then some (m.set i (row.set j v)) else none
  else none

/-- Inner loop of `HessianParser.stop_collecting`: write row `r` of the
triangle into the square array, mirroring every off-diagonal entry. -/
def fillEntries (r : Nat) : Nat → List ℚ → List (List ℚ) →
    Option (List (List ℚ))
  | _, [], m => some m
  | c, v :: vt, m =>
    match matSet m r c v with
    | none => none
    | some m1 =>
      match (if r ≠ c then matSet m1 c r v else some m1) with
      | none => none
      | some m2 => fillEntries r (c + 1) vt m2

/-- Outer loop of `HessianParser.stop_collecting`. -/
def fillRows : Nat → List (List ℚ) → List (List ℚ) → Option (List (List ℚ))
  | _, [], m => some m
  | r, row :: rest, m =>
    match fillEntries r 0 row m with
    | none => none
    | some m1 => fillRows (r + 1) rest m1

/-- `HessianParser.stop_collecting` (source, lines 84-91): allocate an
`n × n` zero array with `n` the number of accumulated rows and copy each
stored entry to both mirror positions. -/
def hessFinalize (rows : List (List ℚ)) : Option (List (List ℚ)) :=
  fillRows 0 rows (zerosMat rows.length)

/-- Accumulator of `HessianParser`: `self.hessian` is a row list while
collecting and is replaced by the finalized square array at episode end. -/
inductive HState where
  | rows (rs : List (List ℚ))
  | mat (m : List (List ℚ))
deriving DecidableEq

/-- `HessianParser` as a collector.  `start_collecting` discards the
accumulator (`self.hessian = []`, source, lines 69-70).  `collect` and
`stop_collecting` on an already-finalized array would raise in Python
(`Numeric` arrays support neither `append` nor row enumeration into scalar
slots); the window protocol never reaches those branches because every
`collect`/`stop` is preceded by a `start`. -/
def hessC : Collector HState where
  start _ := HState.rows []
  collect line st :=
    match st with
    | HState.rows rs => (hessCollectRows line rs).map HState.rows
    | HState.mat _ => none
  stop st :=
    match st with
    | HState.rows rs => (hessFinalize rs).map HState.mat
    | HState.mat _ => none

/-- Accumulator of `CoordinatesParser`: the outer list of finalized
coordinate arrays plus the episode buffer `current_coordinates`
(`none` before the first `start_collecting`: touching it then would be an
`AttributeError`). -/
structure CState where
  outer : List (List (ℚ × ℚ × ℚ))
  cur : Option (List (ℚ × ℚ × ℚ))
deriving DecidableEq

/-- `CoordinatesParser` as a collector (source, lines 159-188),
parameterized by the `from_angstrom` conversion factor `A` (the unit table
is an external collaborator).  `collect` converts each captured coordinate
at the moment of insertion; `stop_collecting` appends the episode buffer
whole to the outer list and keeps the buffer (the source does not clear
`current_coordinates`). -/
def coordC (A : ℚ) : Collector CState where
  start st := ⟨st.outer, some []⟩
  collect line st :=
    match coordSearch line with
    | none => some st
    | some (xw, yw, zw) =>
      match st.cur with
      | none => none
      | some cs =>
        match pyFloat xw, pyFloat yw, pyFloat zw with
        | some x, some y, some z =>
          some ⟨st.outer, some (cs ++ [(ratMul A x, ratMul A y, ratMul A z)])⟩
        | _, _, _ => none
  stop st :=
    match st.cur with
    | none => none
    | some cs => some ⟨st.outer ++ [cs], some cs⟩

/-- An instrumentation collector that records every line forwarded to
`collect`; used to state which lines the engine passes to a collector. -/
def recC : Collector (List Line) where
  start s := s
  collect line s := some (s ++ [line])
  stop s := some s

/-! ## The concrete extractor instances -/

/-- `EnergyParser`: link `"502"`, no activator, no deactivator
(source, lines 196-211); `gate = true` models `condition = None`. -/
def energyStep : Line → Track (List ℚ) → Option (Track (List ℚ)) :=
  linkParse (strL "502") true none none energyC

/-- Reset state of `EnergyParser`. -/
def energyInit : Track (List ℚ) := ⟨false, ⟨false, []⟩⟩

/-- Activator pattern of `HessianParser`. -/
def hessAct : Line → Bool :=
  subMatch (strL "Force constants in Cartesian coordinates:")

/-- Deactivator pattern of `HessianParser`. -/
def hessDeact : Line → Bool :=
  subMatch (strL "Force constants in internal coordinates:")

/-- `HessianParser`: link `"716"` with its two literal patterns
(source, lines 57-63). -/
def hessStep : Line → Track HState → Option (Track HState) :=
  linkParse (strL "716") true (some hessAct) (some hessDeact) hessC

/-- Reset state of `HessianParser`. -/
def hessInit : Track HState := ⟨false, ⟨false, HState.rows []⟩⟩

/-- Activator pattern of `CoordinatesParser`. -/
def coordAct : Line → Bool := subMatch (strL "Input orientation:")

/-- Deactivator pattern of `CoordinatesParser` (the compiled pattern
`"Distance matrix \(angstroms\):"` with its escapes resolved). -/
def coordDeact : Line → Bool :=
  subMatch (strL "Distance matrix (angstroms):")

/-- `CoordinatesParser`: link `"202"` with its two patterns
(source, lines 159-166), for conversion factor `A`. -/
def coordStepA (A : ℚ) : Line → Track CState → Option (Track CState) :=
  linkParse (strL "202") true (some coordAct) (some coordDeact) (coordC A)

/-- Reset state of `CoordinatesParser`. -/
def coordInit : Track CState := ⟨false, ⟨false, ⟨[], none⟩⟩⟩

/-! ## Derived definitions used by the theorems -/

/-- The values `EnergyParser.collect` appends for one line: one captured,
parsable energy, or nothing. -/
def lineVals (l : Line) : List ℚ :=
  match energySearch l with
  | none => []
  | some w =>
    match pyFloat w with
    | none => []
    | some v => [v]

/-- `EnergyParser.collect` succeeds on this line (it either ignores it or
captures a parsable energy token). -/
def lineOk (l : Line) : Bool :=
  match energySearch l with
  | none => true
  | some w => (pyFloat w).isSome

/-- One entry/exit cycle of the target section in a synthetic log:
junk lines before the entry marker, the entry marker line, the body, and
the exit marker line. -/
structure Cycle3 where
  pre : List Line
  enterL : Line
  body : List Line
  leaveL : Line

/-- The synthetic log: the cycles in order, then trailing junk. -/
def renderLog (cs : List Cycle3) (post : List Line) : List Line :=
  (cs.map (fun c => c.pre ++ c.enterL :: (c.body ++ [c.leaveL]))).flatten ++ post

/-- The values the energy regex matches inside one cycle's body. -/
def cycleVals (c : Cycle3) : List ℚ := (c.body.map lineVals).flatten

/-- Well-formedness of one cycle for section `"502"`: the junk before it
never matches the entry marker, its entry and exit lines match their
markers, and its body lines neither match the exit marker nor make
`collect` raise. -/
def cycleOk (c : Cycle3) : Prop :=
  (∀ l ∈ c.pre, enterMatch (strL "502") l = false) ∧
  enterMatch (strL "502") c.enterL = true ∧
  (∀ l ∈ c.body, leaveMatch (strL "502") l = false ∧ lineOk l = true) ∧
  leaveMatch (strL "502") c.leaveL = true

instance : DecidablePred cycleOk := fun c => by
  unfold cycleOk
  infer_instance

/-- The converted coordinate triples `CoordinatesParser.collect` appends
for one line: one triple, already multiplied by the conversion factor `A`
at the moment of insertion, or nothing. -/
def coordVals (A : ℚ) (l : Line) : List (ℚ × ℚ × ℚ) :=
  match coordSearch l with
  | none => []
  | some (xw, yw, zw) =>
    match pyFloat xw, pyFloat yw, pyFloat zw with
    | some x, some y, some z => [(ratMul A x, ratMul A y, ratMul A z)]
    | _, _, _ => []

/-- `CoordinatesParser.collect` succeeds on this line. -/
def coordOk (l : Line) : Bool :=
  match coordSearch l with
  | none => true
  | some (xw, yw, zw) =>
    (pyFloat xw).isSome && (pyFloat yw).isSome && (pyFloat zw).isSome

/-- One activator-to-deactivator episode inside the coordinates section:
idle lines, the activator line, the data block, the deactivator line. -/
structure Episode where
  gap : List Line
  actL : Line
  body : List Line
  deactL : Line

/-- The lines of one episode, in order. -/
def episodeLines (e : Episode) : List Line :=
  e.gap ++ e.actL :: (e.body ++ [e.deactL])

/-- The coordinate array one episode produces: one converted triple per
matching data line, in file order. -/
def coordEpVals (A : ℚ) (e : Episode) : List (ℚ × ℚ × ℚ) :=
  (e.body.map (coordVals A)).flatten

/-- Well-formedness of one episode: the gap never activates and never
exits, the activator line matches the activator (and is not an exit
marker), the body lines neither deactivate nor exit nor raise, and the
deactivator line matches the deactivator (and is not an exit marker). -/
def episodeOk (e : Episode) : Prop :=
  (∀ l ∈ e.gap, coordAct l = false ∧ leaveMatch (strL "202") l = false) ∧
  (coordAct e.actL = true ∧ leaveMatch (strL "202") e.actL = false) ∧
  (∀ l ∈ e.body, coordDeact l = false ∧
    leaveMatch (strL "202") l = false ∧ coordOk l = true) ∧
  (coordDeact e.deactL = true ∧ leaveMatch (strL "202") e.deactL = false)

instance : DecidablePred episodeOk := fun e => by
  unfold episodeOk
  infer_instance

/-- The episode buffer left behind after a list of episodes: untouched if
there was none, otherwise the final episode's array (the source never
clears `current_coordinates`). -/
def finalCur (A : ℚ) (c0 : Option (List (ℚ × ℚ × ℚ))) :
    List Episode → Option (List (ℚ × ℚ × ℚ))
  | [] => c0
  | e :: es => finalCur A (some (coordEpVals A e)) es

/-- Modelled from the spec: the collecting state the window "reports" when
a line is checked — with no activator configured, `collecting` is defined
to be the `inside` flag of the owning section; otherwise it is the
window's own flag. -/
def windowCollecting (act : Option (Line → Bool)) (inside collecting : Bool) :
    Bool :=
  match act with
  | none => inside
  | some _ => collecting

/-! ## Basic lemmas -/

theorem append_singleton_ne {α : Type} (l : List α) (a : α) : l ++ [a] ≠ l := by
  intro h
  have hlen := congrArg List.length h
  simp at hlen

/-- A slice `s[0:k]` with a nonnegative upper bound is a `take`. -/
theorem pySlice_nat_zero (l : List Char) (k : Nat) :
    pySlice l 0 (k : Int) = l.take k := by
  unfold pySlice pyNorm
  have h0 : ¬ ((0 : Int) < 0) := by omega
  have hk : ¬ ((k : Int) < 0) := by omega
  simp only [if_neg h0, if_neg hk, Int.toNat_zero, Int.toNat_natCast]
  have hmin : (0 : Nat) ⊓ l.length = 0 := by
    simp
  rw [hmin, List.drop_zero, Nat.sub_zero, List.take_eq_take]
  omega

/-- No line matches both the exit marker and the entry marker: the two
fixed prefixes disagree at column 1. -/
theorem markersDisjoint (link : Word) (l : Line)
    (h : leaveMatch link l = true) : enterMatch link l = false := by
  unfold leaveMatch at h
  rw [Bool.and_eq_true, beq_iff_eq] at h
  obtain ⟨h1, -⟩ := h
  have e11 : pySlice l 0 (11 : Int) = l.take 11 := pySlice_nat_zero l 11
  rw [e11] at h1
  unfold enterMatch
  have e8 : pySlice l 0 (8 : Int) = l.take 8 := pySlice_nat_zero l 8
  have h8 : l.take 8 = (l.take 11).take 8 := by
    rw [List.take_take]
    norm_num
  rw [h1] at h8
  have hne : ((strL " Leave Link").take 8 == strL " (Enter ") = false := by decide
  rw [e8, h8, hne]
  simp

theorem runLines_cons_some {α : Type} (step : Line → α → Option α)
    (st st2 : α) (l : Line) (ls : List Line) (h : step l st = some st2) :
    runLines step st (l :: ls) = runLines step st2 ls := by
  simp [runLines, h]

theorem runLines_append {α : Type} (step : Line → α → Option α)
    (st : α) (xs ys : List Line) :
    runLines step st (xs ++ ys) =
      (runLines step st xs).bind (fun s2 => runLines step s2 ys) := by
  induction xs generalizing st with
  | nil => simp [runLines]
  | cons x xs ih =>
    simp only [List.cons_append, runLines]
    cases h : step x st with
    | none => simp
    | some st2 => simpa using ih st2

theorem step_outside {σ : Type} (link : Word) (gate : Bool)
    (act deact : Option (Line → Bool)) (C : Collector σ) (m : MLP σ)
    (l : Line) (h : enterMatch link l = false) :
    linkParse link gate act deact C l ⟨false, m⟩ = some ⟨false, m⟩ := by
  unfold linkParse trackerParse
  by_cases hx : leaveMatch link l <;> simp [hx, h]

theorem step_enter {σ : Type} (link : Word) (gate : Bool)
    (act deact : Option (Line → Bool)) (C : Collector σ) (m : MLP σ)
    (l : Line) (h : enterMatch link l = true) :
    linkParse link gate act deact C l ⟨false, m⟩ = some ⟨true, m⟩ := by
  unfold linkParse trackerParse
  by_cases hx : leaveMatch link l <;> simp [hx, h]

theorem step_leave {σ : Type} (link : Word) (gate : Bool)
    (act deact : Option (Line → Bool)) (C : Collector σ) (m : MLP σ)
    (b : Bool) (l : Line) (h : leaveMatch link l = true) :
    linkParse link gate act deact C l ⟨b, m⟩ = some ⟨false, m⟩ := by
  have he := markersDisjoint link l h
  unfold linkParse trackerParse
  simp [h, he]

theorem step_collect_noact {σ : Type} (link : Word)
    (deact : Option (Line → Bool)) (C : Collector σ) (m : MLP σ)
    (l : Line) (a2 : σ) (hlv : leaveMatch link l = false)
    (hc : C.collect l m.acc = some a2) :
    linkParse link true none deact C l ⟨true, m⟩ =
      some ⟨true, ⟨m.collecting, a2⟩⟩ := by
  unfold linkParse trackerParse mlpParse
  by_cases hn : enterMatch link l <;> simp [hlv, hn, hc]

theorem step_idle {σ : Type} (link : Word) (a : Line → Bool)
    (deact : Option (Line → Bool)) (C : Collector σ) (m : MLP σ)
    (l : Line) (hlv : leaveMatch link l = false)
    (hcol : m.collecting = false) (ha : a l = false) :
    linkParse link true (some a) deact C l ⟨true, m⟩ = some ⟨true, m⟩ := by
  unfold linkParse trackerParse mlpParse
  by_cases hn : enterMatch link l <;> simp [hlv, hn, hcol, ha]

theorem step_activate {σ : Type} (link : Word) (a : Line → Bool)
    (deact : Option (Line → Bool)) (C : Collector σ) (m : MLP σ)
    (l : Line) (hlv : leaveMatch link l = false)
    (hcol : m.collecting = false) (ha : a l = true) :
    linkParse link true (some a) deact C l ⟨true, m⟩ =
      some ⟨true, ⟨true, C.start m.acc⟩⟩ := by
  unfold linkParse trackerParse mlpParse
  by_cases hn : enterMatch link l <;> simp [hlv, hn, hcol, ha]

theorem step_collect_act {σ : Type} (link : Word) (a : Line → Bool)
    (deact : Option (Line → Bool)) (C : Collector σ) (m : MLP σ)
    (l : Line) (a2 : σ) (hlv : leaveMatch link l = false)
    (hcol : m.collecting = true) (hd : dMatch deact l = false)
    (hc : C.collect l m.acc = some a2) :
    linkParse link true (some a) deact C l ⟨true, m⟩ =
      some ⟨true, ⟨true, a2⟩⟩ := by
  unfold linkParse trackerParse mlpParse
  by_cases hn : enterMatch link l <;> simp [hlv, hn, hcol, hd, hc]

theorem step_deactivate {σ : Type} (link : Word) (a : Line → Bool)
    (deact : Option (Line → Bool)) (C : Collector σ) (m : MLP σ)
    (l : Line) (s2 : σ) (hlv : leaveMatch link l = false)
    (hcol : m.collecting = true) (hd : dMatch deact l = true)
    (hs : C.stop m.acc = some s2) :
    linkParse link true (some a) deact C l ⟨true, m⟩ =
      some ⟨true, ⟨false, s2⟩⟩ := by
  unfold linkParse trackerParse mlpParse
  by_cases hn : enterMatch link l <;> simp [hlv, hn, hcol, hd, hs]

/-- Lines outside the section leave the whole state unchanged as long as
none of them matches the entry marker. -/
theorem run_junk {σ : Type} (link : Word) (gate : Bool)
    (act deact : Option (Line → Bool)) (C : Collector σ) (m : MLP σ)
    (ls : List Line) (h : ∀ l ∈ ls, enterMatch link l = false) :
    runLines (linkParse link gate act deact C) ⟨false, m⟩ ls =
      some ⟨false, m⟩ := by
  induction ls with
  | nil => rfl
  | cons x xs ih =>
    rw [runLines_cons_some _ _ _ _ _
      (step_outside link gate act deact C m x (h x (by simp)))]
    exact ih (fun l hl => h l (by simp [hl]))

theorem energy_collect_ok (l : Line) (s : List ℚ) (h : lineOk l = true) :
    energyC.collect l s = some (s ++ lineVals l) := by
  unfold lineOk at h
  unfold energyC lineVals
  cases he : energySearch l with
  | none => simp [he]
  | some w =>
    simp only [he] at h
    cases hf : pyFloat w with
    | none => simp [hf] at h
    | some v => simp [he, hf]

/-- Inside the section, the no-activator energy extractor appends exactly
the matched values of each line, provided no line matches the exit marker
and every line's collect succeeds. -/
theorem run_energy_body (c : Bool) (acc : List ℚ) (ls : List Line)
    (h : ∀ l ∈ ls, leaveMatch (strL "502") l = false ∧ lineOk l = true) :
    runLines energyStep ⟨true, ⟨c, acc⟩⟩ ls =
      some ⟨true, ⟨c, acc ++ (ls.map lineVals).flatten⟩⟩ := by
  induction ls generalizing acc with
  | nil => simp [runLines]
  | cons x xs ih =>
    obtain ⟨h1, h2⟩ := h x (by simp)
    have hstep : energyStep x ⟨true, ⟨c, acc⟩⟩ =
        some ⟨true, ⟨c, acc ++ lineVals x⟩⟩ :=
      step_collect_noact (strL "502") none energyC ⟨c, acc⟩ x _ h1
        (energy_collect_ok x acc h2)
    rw [runLines_cons_some _ _ _ _ _ hstep]
    rw [ih (acc ++ lineVals x) (fun l hl => h l (by simp [hl]))]
    simp

/-- Running one well-formed cycle from outside the section returns outside
the section having appended exactly that cycle's matched values. -/
theorem run_energy_cycle (c : Cycle3) (w : Bool) (acc : List ℚ)
    (h : cycleOk c) :
    runLines energyStep ⟨false, ⟨w, acc⟩⟩
        (c.pre ++ c.enterL :: (c.body ++ [c.leaveL])) =
      some ⟨false, ⟨w, acc ++ cycleVals c⟩⟩ := by
  obtain ⟨hpre, hent, hbody, hlv⟩ := h
  have hjunk : runLines energyStep ⟨false, ⟨w, acc⟩⟩ c.pre =
      some ⟨false, ⟨w, acc⟩⟩ :=
    run_junk (strL "502") true none none energyC ⟨w, acc⟩ c.pre hpre
  rw [runLines_append, hjunk, Option.some_bind]
  have hent2 : energyStep c.enterL ⟨false, ⟨w, acc⟩⟩ = some ⟨true, ⟨w, acc⟩⟩ :=
    step_enter (strL "502") true none none energyC ⟨w, acc⟩ _ hent
  rw [runLines_cons_some _ _ _ _ _ hent2, runLines_append,
    run_energy_body w acc c.body hbody, Option.some_bind]
  have hlv2 : energyStep c.leaveL
        ⟨true, ⟨w, acc ++ (c.body.map lineVals).flatten⟩⟩ =
      some ⟨false, ⟨w, acc ++ (c.body.map lineVals).flatten⟩⟩ :=
    step_leave (strL "502") true none none energyC _ true _ hlv
  rw [runLines_cons_some _ _ _ _ _ hlv2]
  rfl

theorem coord_collect_ok (A : ℚ) (l : Line)
    (o : List (List (ℚ × ℚ × ℚ))) (cs : List (ℚ × ℚ × ℚ))
    (h : coordOk l = true) :
    (coordC A).collect l ⟨o, some cs⟩ =
      some ⟨o, some (cs ++ coordVals A l)⟩ := by
  unfold coordOk at h
  unfold coordC coordVals
  cases he : coordSearch l with
  | none => simp [he]
  | some t =>
    obtain ⟨xw, yw, zw⟩ := t
    simp only [he, Bool.and_eq_true, Option.isSome_iff_exists] at h
    obtain ⟨⟨⟨x, hx⟩, ⟨y, hy⟩⟩, ⟨z, hz⟩⟩ := h
    simp [he, hx, hy, hz]

/-- While collecting, the coordinates extractor appends exactly the
converted triples of each line, provided no line matches the deactivator
or the exit marker and every line's collect succeeds. -/
theorem run_coord_body (A : ℚ) (o : List (List (ℚ × ℚ × ℚ)))
    (cs : List (ℚ × ℚ × ℚ)) (ls : List Line)
    (h : ∀ l ∈ ls, coordDeact l = false ∧
      leaveMatch (strL "202") l = false ∧ coordOk l = true) :
    runLines (coordStepA A) ⟨true, ⟨true, ⟨o, some cs⟩⟩⟩ ls =
      some ⟨true, ⟨true, ⟨o, some (cs ++ (ls.map (coordVals A)).flatten)⟩⟩⟩ := by
  induction ls generalizing cs with
  | nil => simp [runLines]
  | cons x xs ih =>
    obtain ⟨h1, h2, h3⟩ := h x (by simp)
    have hstep : coordStepA A x ⟨true, ⟨true, ⟨o, some cs⟩⟩⟩ =
        some ⟨true, ⟨true, ⟨o, some (cs ++ coordVals A x)⟩⟩⟩ :=
      step_collect_act (strL "202") coordAct (some coordDeact) (coordC A)
        ⟨true, ⟨o, some cs⟩⟩ x _ h2 rfl h1 (coord_collect_ok A x o cs h3)
    rw [runLines_cons_some _ _ _ _ _ hstep]
    rw [ih (cs ++ coordVals A x) (fun l hl => h l (by simp [hl]))]
    simp

/-- Lines inside the section while the window is idle leave the state
unchanged when none of them matches the activator or the exit marker. -/
theorem run_coord_gap (A : ℚ) (m : MLP CState) (ls : List Line)
    (hcol : m.collecting = false)
    (h : ∀ l ∈ ls, coordAct l = false ∧ leaveMatch (strL "202") l = false) :
    runLines (coordStepA A) ⟨true, m⟩ ls = some ⟨true, m⟩ := by
  induction ls with
  | nil => rfl
  | cons x xs ih =>
    obtain ⟨h1, h2⟩ := h x (by simp)
    have hstep : coordStepA A x ⟨true, m⟩ = some ⟨true, m⟩ :=
      step_idle (strL "202") coordAct (some coordDeact) (coordC A)
        m x h2 hcol h1
    rw [runLines_cons_some _ _ _ _ _ hstep]
    exact ih (fun l hl => h l (by simp [hl]))

/-- Running one well-formed episode: the window opens at the activator
(resetting the episode buffer), collects exactly the converted triples of
the body, and the deactivator appends the finished array whole to the
outer list and closes the window. -/
theorem run_coord_episode (A : ℚ) (e : Episode)
    (o : List (List (ℚ × ℚ × ℚ))) (m : MLP CState)
    (hcol : m.collecting = false) (hacc : m.acc.outer = o)
    (h : episodeOk e) :
    runLines (coordStepA A) ⟨true, m⟩ (episodeLines e) =
      some ⟨true, ⟨false, ⟨o ++ [coordEpVals A e], some (coordEpVals A e)⟩⟩⟩ := by
  obtain ⟨hgap, ⟨hact, hact2⟩, hbody, ⟨hde, hde2⟩⟩ := h
  unfold episodeLines
  rw [runLines_append, run_coord_gap A m e.gap hcol hgap, Option.some_bind]
  have hstep : coordStepA A e.actL ⟨true, m⟩ =
      some ⟨true, ⟨true, ⟨m.acc.outer, some []⟩⟩⟩ :=
    step_activate (strL "202") coordAct (some coordDeact) (coordC A)
      m e.actL hact2 hcol hact
  rw [runLines_cons_some _ _ _ _ _ hstep, runLines_append, hacc,
    run_coord_body A o [] e.body hbody, Option.some_bind]
  have hstop : coordStepA A e.deactL
        ⟨true, ⟨true, ⟨o, some ([] ++ (e.body.map (coordVals A)).flatten)⟩⟩⟩ =
      some ⟨true, ⟨false, ⟨o ++ [[] ++ (e.body.map (coordVals A)).flatten],
        some ([] ++ (e.body.map (coordVals A)).flatten)⟩⟩⟩ :=
    step_deactivate (strL "202") coordAct (some coordDeact) (coordC A)
      ⟨true, ⟨o, some ([] ++ (e.body.map (coordVals A)).flatten)⟩⟩
      e.deactL _ hde2 rfl hde rfl
  rw [runLines_cons_some _ _ _ _ _ hstop]
  simp [runLines, coordEpVals]

/-- Running a list of well-formed episodes inside the section appends one
finalized coordinate array per episode, in file order. -/
theorem run_coord_episodes (A : ℚ) (eps : List Episode)
    (o : List (List (ℚ × ℚ × ℚ))) (cur : Option (List (ℚ × ℚ × ℚ)))
    (h : ∀ e ∈ eps, episodeOk e) :
    runLines (coordStepA A) ⟨true, ⟨false, ⟨o, cur⟩⟩⟩
        (eps.map episodeLines).flatten =
      some ⟨true, ⟨false, ⟨o ++ eps.map (coordEpVals A), finalCur A cur eps⟩⟩⟩ := by
  induction eps generalizing o cur with
  | nil => simp [runLines, finalCur]
  | cons e es ih =>
    rw [List.map_cons, List.flatten_cons, runLines_append,
      run_coord_episode A e o ⟨false, ⟨o, cur⟩⟩ rfl rfl (h e (by simp)),
      Option.some_bind,
      ih (o ++ [coordEpVals A e]) (some (coordEpVals A e))
        (fun x hx => h x (by simp [hx]))]
    simp [finalCur]

/-- With the gating predicate suppressing collection, a step changes only
the `in_link` flag; the window state and accumulator are untouched. -/
theorem step_gate_false {σ : Type} (link : Word)
    (act deact : Option (Line → Bool)) (C : Collector σ) (st : Track σ)
    (x : Line) :
    linkParse link false act deact C x st =
      some ⟨(if enterMatch link x then true
             else if leaveMatch link x then false else st.in_link), st.mlp⟩ := by
  unfold linkParse trackerParse mlpParse
  by_cases hx : leaveMatch link x <;> by_cases hn : enterMatch link x <;>
    by_cases hi : st.in_link <;> simp [hx, hn, hi]

/-- With an activator configured, an idle window (collecting `false`) stays
untouched on any line that does not match the activator, whatever the
tracker does. -/
theorem step_idle_any {σ : Type} (link : Word) (gate : Bool)
    (a : Line → Bool) (deact : Option (Line → Bool)) (C : Collector σ)
    (st : Track σ) (x : Line) (h0 : st.mlp.collecting = false)
    (hax : a x = false) :
    linkParse link gate (some a) deact C x st =
      some ⟨(if enterMatch link x then true
             else if leaveMatch link x then false else st.in_link), st.mlp⟩ := by
  unfold linkParse trackerParse mlpParse
  by_cases hx : leaveMatch link x <;> by_cases hn : enterMatch link x <;>
    by_cases hi : st.in_link <;> cases gate <;> simp [hx, hn, hi, h0, hax]

/-! ## Claim theorems -/

/-- C10: for every line that matches both the tracker's exit marker and its
entry marker, the tracker ends the line with `inside = true` (the entry
update is applied after the exit update) and the line is not passed to the
collector (the window state, including the accumulator, is untouched,
because the exit update has already cleared `inside` when the forwarding
check runs).  Stated for `trackerParse`, the body of `LinkParser.parse`
abstracted over the two marker tests; for the concrete G98 markers no line
can match both (their fixed prefixes disagree), so the property is
exercised on the abstract step. -/
theorem C10_exit_before_entry_order {σ : Type} (isExit isEnter : Line → Bool)
    (inner : Line → MLP σ → Option (MLP σ)) (st : Track σ) (l : Line)
    (hx : isExit l = true) (hn : isEnter l = true) :
    trackerParse isExit isEnter inner l st = some ⟨true, st.mlp⟩ := by
  unfold trackerParse
  simp [hx, hn]

/-- C10 witness: a recording inner parser on a line matching both markers:
the line is not recorded and the tracker ends inside. -/
theorem C10_exit_before_entry_order_witness :
    trackerParse (fun _ => true) (fun _ => true)
        (fun l (m : MLP (List Line)) => some ⟨m.collecting, m.acc ++ [l]⟩)
        (strL "both markers") ⟨true, ⟨true, []⟩⟩ =
      some ⟨true, ⟨true, []⟩⟩ :=
  C10_exit_before_entry_order _ _ _ _ _ rfl rfl

/-- C8: with the gating predicate set to "never" (`gate = false`), the
window's collecting flag is false after every line of the pass and the
accumulator still holds its reset value, whatever the stream contains —
quantifying over all line lists covers every prefix of the pass, so the
flag is false after each line.  The window is modelled from the spec. -/
theorem C8_gate_never_empty {σ : Type} (C : Collector σ) (link : Word)
    (act deact : Option (Line → Bool)) (a0 : σ) (ls : List Line) :
    ∃ st2, runLines (linkParse link false act deact C)
        ⟨false, ⟨false, a0⟩⟩ ls = some st2 ∧
      st2.mlp.collecting = false ∧ st2.mlp.acc = a0 := by
  suffices h : ∀ (b : Bool),
      ∃ st2, runLines (linkParse link false act deact C)
        ⟨b, ⟨false, a0⟩⟩ ls = some st2 ∧
        st2.mlp.collecting = false ∧ st2.mlp.acc = a0 from h false
  induction ls with
  | nil => exact fun b => ⟨⟨b, ⟨false, a0⟩⟩, rfl, rfl, rfl⟩
  | cons x xs ih =>
    intro b
    obtain ⟨st2, h1, h2, h3⟩ := ih
      (if enterMatch link x then true
       else if leaveMatch link x then false else b)
    exact ⟨st2,
      by rw [runLines_cons_some _ _ _ _ _
        (step_gate_false link act deact C ⟨b, ⟨false, a0⟩⟩ x), h1], h2, h3⟩

/-- C7 (amended): as long as the window is not collecting, no line that
fails the activator test changes the window state at all — in particular
the accumulator never grows, across section exits and re-entries, until a
fresh activator match.  (The original claim fails when a section exits
with an episode still open; see the counterexample.) -/
theorem C7_no_collect_before_activator_amended {σ : Type} (C : Collector σ)
    (link : Word) (gate : Bool) (a : Line → Bool)
    (deact : Option (Line → Bool)) (st : Track σ) (ls : List Line)
    (h0 : st.mlp.collecting = false) (hl : ∀ l ∈ ls, a l = false) :
    ∃ st2, runLines (linkParse link gate (some a) deact C) st ls = some st2 ∧
      st2.mlp = st.mlp := by
  induction ls generalizing st with
  | nil => exact ⟨st, rfl, rfl⟩
  | cons x xs ih =>
    obtain ⟨st2, h1, h2⟩ := ih
      (⟨(if enterMatch link x then true
          else if leaveMatch link x then false else st.in_link), st.mlp⟩ :
        Track σ) h0 (fun l hl2 => hl l (by simp [hl2]))
    refine ⟨st2, ?_, by rw [h2]⟩
    rw [runLines_cons_some _ _ _ _ _
      (step_idle_any link gate a deact C st x h0 (hl x (by simp))), h1]

/-- C7 (amended) witness: a full exit/re-entry with junk data lines, none
matching the activator: the recording window stays idle and empty. -/
theorem C7_no_collect_before_activator_amended_witness :
    ∃ st2, runLines (linkParse (strL "202") true (some coordAct)
        (some coordDeact) recC) ⟨false, ⟨false, []⟩⟩
        [strL " (Enter l202.exe)\n", strL " some data\n",
         strL " Leave Link  202\n", strL " (Enter l202.exe)\n",
         strL " more data\n"] = some st2 ∧
      st2.mlp = (⟨false, []⟩ : MLP (List Line)) :=
  C7_no_collect_before_activator_amended recC (strL "202") true coordAct
    (some coordDeact) ⟨false, ⟨false, []⟩⟩ _ rfl (by decide)

/-- C7 counterexample: the claim as stated is false.  If the section exits
while an episode is still open (activator seen, no deactivator), the
window is still collecting at the moment of re-entry, and the first
coordinate line of the re-entered section is collected without any fresh
activator match. -/
theorem C7_reentry_still_collecting_counterexample :
    runLines (coordStepA 2) coordInit
        [strL " (Enter l202.exe)\n",
         strL "                         Input orientation:\n",
         strL " Leave Link  202\n",
         strL " (Enter l202.exe)\n"] =
      some ⟨true, ⟨true, ⟨[], some []⟩⟩⟩ ∧
    runLines (coordStepA 2) coordInit
        [strL " (Enter l202.exe)\n",
         strL "                         Input orientation:\n",
         strL " Leave Link  202\n",
         strL " (Enter l202.exe)\n",
         strL "      1          8           0        1.5   2.5  3.5\n"] =
      some ⟨true, ⟨true, ⟨[], some [(3, 5, 7)]⟩⟩⟩ := by
  exact ⟨by decide, by decide⟩

/-- C1 (amended): in one `LinkParser` step with a recording collector,
(1) a line is either collected (recorded) or not; (2) a collected line was
seen with `in_link = true` at the forwarding check and with the window
reporting `collecting = true` there; (3) a line matching the exit marker
is never collected (the exit update precedes the check); (4) a line
matching the entry marker is not collected when the tracker was outside
(the entry update follows the check).  The original claim's stronger
statement — that an entry-marker line is never collected — is false when
the tracker is already inside; see the counterexample. -/
theorem C1_collection_gating_amended (link : Word) (gate : Bool)
    (act deact : Option (Line → Bool)) (st st2 : Track (List Line))
    (l : Line) (h : linkParse link gate act deact recC l st = some st2) :
    (st2.mlp.acc = st.mlp.acc ++ [l] ∨ st2.mlp.acc = st.mlp.acc) ∧
    (st2.mlp.acc = st.mlp.acc ++ [l] →
      st.in_link = true ∧ windowCollecting act true st.mlp.collecting = true) ∧
    (leaveMatch link l = true → st2.mlp.acc = st.mlp.acc) ∧
    (st.in_link = false → enterMatch link l = true →
      st2.mlp.acc = st.mlp.acc) := by
  unfold linkParse trackerParse mlpParse at h
  by_cases hx : leaveMatch link l
  · by_cases hn : enterMatch link l <;> simp [hx, hn] at h <;> subst h <;>
      exact ⟨Or.inr rfl, fun hc => (append_singleton_ne _ _ hc.symm).elim,
        fun _ => rfl, fun _ _ => rfl⟩
  · by_cases hi : st.in_link
    · cases gate with
      | false =>
        by_cases hn : enterMatch link l <;> simp [hx, hi, hn] at h <;>
          subst h <;>
          exact ⟨Or.inr rfl, fun hc => (append_singleton_ne _ _ hc.symm).elim,
            fun hc => absurd hc hx, fun h4 _ => by simp [h4] at hi⟩
      | true =>
        cases act with
        | none =>
          by_cases hn : enterMatch link l <;> simp [hx, hi, hn, recC] at h <;>
            subst h <;>
            exact ⟨Or.inl rfl, fun _ => ⟨hi, rfl⟩,
              fun hc => absurd hc hx, fun h4 _ => by simp [h4] at hi⟩
        | some a =>
          by_cases hcol : st.mlp.collecting
          · by_cases hd : dMatch deact l
            · by_cases hn : enterMatch link l <;>
                simp [hx, hi, hn, hcol, hd, recC] at h <;> subst h <;>
                exact ⟨Or.inr rfl,
                  fun hc => (append_singleton_ne _ _ hc.symm).elim,
                  fun hc => absurd hc hx, fun h4 _ => by simp [h4] at hi⟩
            · by_cases hn : enterMatch link l <;>
                simp [hx, hi, hn, hcol, hd, recC] at h <;> subst h <;>
                exact ⟨Or.inl rfl, fun _ => ⟨hi, by simpa using hcol⟩,
                  fun hc => absurd hc hx, fun h4 _ => by simp [h4] at hi⟩
          · by_cases ha : a l
            · by_cases hn : enterMatch link l <;>
                simp [hx, hi, hn, hcol, ha, recC] at h <;> subst h <;>
                exact ⟨Or.inr rfl,
                  fun hc => (append_singleton_ne _ _ hc.symm).elim,
                  fun hc => absurd hc hx, fun h4 _ => by simp [h4] at hi⟩
            · by_cases hn : enterMatch link l <;>
                simp [hx, hi, hn, hcol, ha, recC] at h <;> subst h <;>
                exact ⟨Or.inr rfl,
                  fun hc => (append_singleton_ne _ _ hc.symm).elim,
                  fun hc => absurd hc hx, fun h4 _ => by simp [h4] at hi⟩
    · by_cases hn : enterMatch link l <;> simp [hx, hi, hn] at h <;>
        subst h <;>
        exact ⟨Or.inr rfl, fun hc => (append_singleton_ne _ _ hc.symm).elim,
          fun hc => absurd hc hx, fun _ _ => rfl⟩

/-- C1 (amended) witness: a plain data line inside the section is recorded,
and the theorem certifies the tracker was inside and the window reported
collecting. -/
theorem C1_collection_gating_amended_witness :
    (⟨true, ⟨false, []⟩⟩ : Track (List Line)).in_link = true ∧
    windowCollecting none true false = true := by
  have h := C1_collection_gating_amended (strL "502") true none none
    ⟨true, ⟨false, []⟩⟩ ⟨true, ⟨false, [strL "xyz"]⟩⟩ (strL "xyz") (by decide)
  exact h.2.1 (by decide)

/-- C1 counterexample: a line matching the entry marker CAN be collected —
when the tracker is already inside, the entry-marker line is forwarded to
the window before the (idempotent) entry update.  Here the second line
matches the entry marker for link 502 and also the SCF-energy pattern, and
its energy -2.5 ends up in the result. -/
theorem C1_entry_line_collected_counterexample :
    runLines energyStep energyInit
        [strL " (Enter l502.exe)\n",
         strL " (Enter SCF Done: E(q) = -2.5 A.U. l502.exe)\n"] =
      some ⟨true, ⟨false, [mkRat (-5) 2]⟩⟩ ∧
    enterMatch (strL "502")
      (strL " (Enter SCF Done: E(q) = -2.5 A.U. l502.exe)\n") = true := by
  exact ⟨by decide, by decide⟩

/-- C2 counterexample: fed exactly the three lines quoted in the claim
(with or without trailing newlines), the extractor never enters link 502 —
`" (Enter l502)"` does not put `"502"` into the slice `line[-9:-6]` and
`" Leave Link502"` does not put it into `line[13:16]` — so the result is
empty, not `[-1.234567]`. -/
theorem C2_literal_lines_counterexample :
    runLines energyStep energyInit
        [strL " (Enter l502)", strL "SCF Done: E(...) = -1.234567 A.U.",
         strL " Leave Link502"] =
      some ⟨false, ⟨false, []⟩⟩ ∧
    runLines energyStep energyInit
        [strL " (Enter l502)\n", strL "SCF Done: E(...) = -1.234567 A.U.\n",
         strL " Leave Link502\n"] =
      some ⟨false, ⟨false, []⟩⟩ ∧
    enterMatch (strL "502") (strL " (Enter l502)") = false ∧
    leaveMatch (strL "502") (strL " Leave Link502") = false := by
  exact ⟨by decide, by decide, by decide, by decide⟩

/-- C2 (amended): with marker lines that follow the source's offset
conventions — the entry line ends `"l502.exe)"` so that `"502"` occupies
`line[-9:-6]`, and the exit line reads `" Leave Link  502"` so that
`"502"` occupies `line[13:16]` — the extractor returns `[-1.234567]`, and
after repeating the block with `-1.300000` it returns
`[-1.234567, -1.3]`. -/
theorem C2_end_to_end_amended :
    runLines energyStep energyInit
        [strL " (Enter l502.exe)\n",
         strL "SCF Done: E(...) = -1.234567 A.U.\n",
         strL " Leave Link  502\n"] =
      some ⟨false, ⟨false, [mkRat (-1234567) 1000000]⟩⟩ ∧
    runLines energyStep energyInit
        [strL " (Enter l502.exe)\n",
         strL "SCF Done: E(...) = -1.234567 A.U.\n",
         strL " Leave Link  502\n",
         strL " (Enter l502.exe)\n",
         strL "SCF Done: E(...) = -1.300000 A.U.\n",
         strL " Leave Link  502\n"] =
      some ⟨false, ⟨false, [mkRat (-1234567) 1000000, mkRat (-13) 10]⟩⟩ := by
  exact ⟨by decide, by decide⟩

/-- C3: for every synthetic log of N entry/exit cycles of section 502 —
arbitrary junk (never matching the entry marker) before each cycle and
after the last, and bodies whose lines never match the exit marker and
never make `collect` raise — the no-activator scalar-series extractor
accumulates exactly the regex-matched values of every cycle body, in file
order, and nothing from outside the section. -/
theorem C3_scalar_series_cycles (cs : List Cycle3) (post : List Line)
    (h1 : ∀ c ∈ cs, cycleOk c)
    (h2 : ∀ l ∈ post, enterMatch (strL "502") l = false) :
    runLines energyStep energyInit (renderLog cs post) =
      some ⟨false, ⟨false, (cs.map cycleVals).flatten⟩⟩ := by
  have main : ∀ (cs2 : List Cycle3) (acc : List ℚ), (∀ c ∈ cs2, cycleOk c) →
      runLines energyStep ⟨false, ⟨false, acc⟩⟩
        (cs2.map (fun c => c.pre ++ c.enterL :: (c.body ++ [c.leaveL]))).flatten =
      some ⟨false, ⟨false, acc ++ (cs2.map cycleVals).flatten⟩⟩ := by
    intro cs2
    induction cs2 with
    | nil => intro acc _; simp [runLines]
    | cons c rest ih =>
      intro acc hok
      rw [List.map_cons, List.flatten_cons, runLines_append,
        run_energy_cycle c false acc (hok c (by simp)), Option.some_bind,
        ih (acc ++ cycleVals c) (fun x hx => hok x (by simp [hx]))]
      simp
  have hpost : runLines energyStep
      ⟨false, ⟨false, [] ++ (cs.map cycleVals).flatten⟩⟩ post =
      some ⟨false, ⟨false, [] ++ (cs.map cycleVals).flatten⟩⟩ :=
    run_junk (strL "502") true none none energyC _ post h2
  unfold renderLog energyInit
  rw [runLines_append, main cs [] h1, Option.some_bind, hpost]
  simp

/-- C3 witness: two cycles with junk around them; the matched energies of
both cycles appear in order, with nothing from the junk. -/
theorem C3_scalar_series_cycles_witness :
    runLines energyStep energyInit (renderLog
      [⟨[strL "junk SCF Done: E(x) = -9.0 A.U."],
        strL " (Enter l502.exe)\n",
        [strL "SCF Done: E(RHF) = -1.5 A.U.\n", strL " other text\n"],
        strL " Leave Link  502\n"⟩,
       ⟨[], strL " (Enter l502.exe)\n",
        [strL "SCF Done: E(RHF) = -2.25 A.U.\n"],
        strL " Leave Link  502\n"⟩]
      [strL "tail junk"]) =
      some ⟨false, ⟨false, [mkRat (-3) 2, mkRat (-9) 4]⟩⟩ := by
  have h := C3_scalar_series_cycles
    [⟨[strL "junk SCF Done: E(x) = -9.0 A.U."],
      strL " (Enter l502.exe)\n",
      [strL "SCF Done: E(RHF) = -1.5 A.U.\n", strL " other text\n"],
      strL " Leave Link  502\n"⟩,
     ⟨[], strL " (Enter l502.exe)\n",
      [strL "SCF Done: E(RHF) = -2.25 A.U.\n"],
      strL " Leave Link  502\n"⟩]
    [strL "tail junk"] (by decide) (by decide)
  exact h.trans (by decide)

/-- C4: the code at a failing input for the claim.  A 2-row lower triangle
whose second row is split across two lines (the split form the claim
explicitly allows): `HessianParser.collect` tests
`row_number >= len(self.hessian)`, so the continuation line for row 2 —
arriving when two rows already exist (`2 >= 2`) — is appended as a
spurious third row instead of extending row 2.  `stop_collecting` then
finalizes a 3x3 matrix with both remaining diagonal entries zero, instead
of the 2x2 matrix with `M[1][1] = 3.0` that the claim requires; on the
same rows correctly joined, `hessFinalize` does produce that 2x2 matrix,
so the defect is the off-by-one in `collect`, not the finalization. -/
theorem C4_split_row_misfiled :
    runLines hessStep hessInit
        [strL " (Enter l716.exe)\n",
         strL " Force constants in Cartesian coordinates:\n",
         strL "      1  0.10D+01\n",
         strL "      2  0.20D+01\n",
         strL "      2  0.30D+01\n",
         strL " Force constants in internal coordinates:\n",
         strL " Leave Link  716\n"] =
      some ⟨false, ⟨false, HState.mat [[1, 2, 3], [2, 0, 0], [3, 0, 0]]⟩⟩ ∧
    hessFinalize [[1], [2, 3]] = some [[1, 2], [2, 3]] := by
  exact ⟨by decide, by decide⟩

/-- C5 counterexample: a blank line inside the hessian collecting window
makes `collect` raise (`words[1]` is an `IndexError` on fewer than two
tokens), aborting the extraction — it is not silently ignored. -/
theorem C5_hessian_blank_line_counterexample :
    runLines hessStep hessInit
        [strL " (Enter l716.exe)\n",
         strL " Force constants in Cartesian coordinates:\n",
         strL "\n"] = none ∧
    hessC.collect (strL "\n") (HState.rows []) = none := by
  exact ⟨by decide, by decide⟩

/-- C5 (amended): the scalar-energy, frequency, mass and coordinate
collectors silently ignore any line that does not match their token shape,
for arbitrary line text; the symmetric-matrix (hessian) collector ignores
a non-matching line only when the line has at least two whitespace tokens
(second token without `D`) — on a line with fewer than two tokens its
`collect` raises instead. -/
theorem C5_shape_mismatch_ignored_amended :
    (∀ (l : Line) (s : List ℚ), energySearch l = none →
      energyC.collect l s = some s) ∧
    (∀ (pat : Word) (l : Line) (s : List ℚ),
      (pySlice l 0 (pat.length : Int) == pat) = false →
      freqCollect pat l s = some s) ∧
    (∀ (l : Line) (s : List ℚ), massSearch l = none →
      massC.collect l s = some s) ∧
    (∀ (A : ℚ) (l : Line) (st : CState), coordSearch l = none →
      (coordC A).collect l st = some st) ∧
    (∀ (l : Line) (rs : List (List ℚ)) (w0 w1 : Word) (ws : List Word),
      pySplit l = w0 :: w1 :: ws → containsD w1 = false →
      hessC.collect l (HState.rows rs) = some (HState.rows rs)) ∧
    (∀ (l : Line) (rs : List (List ℚ)), (pySplit l).length < 2 →
      hessC.collect l (HState.rows rs) = none) := by
  refine ⟨?_, ?_, ?_, ?_, ?_, ?_⟩
  · intro l s h
    simp [energyC, h]
  · intro pat l s h
    simp [freqCollect, h]
  · intro l s h
    simp [massC, h]
  · intro A l st h
    simp [coordC, h]
  · intro l rs w0 w1 ws h hD
    simp [hessC, hessCollectRows, h, hD]
  · intro l rs h
    cases hm : pySplit l with
    | nil => simp [hessC, hessCollectRows, hm]
    | cons a t =>
      cases t with
      | nil => simp [hessC, hessCollectRows, hm]
      | cons b t2 =>
        rw [hm] at h
        simp at h
        omega

/-- C5 (amended) witness: one concrete non-matching line per collector,
plus the two hessian cases. -/
theorem C5_shape_mismatch_ignored_amended_witness :
    energyC.collect (strL "no match here") [] = some [] ∧
    freqCollect (strL " Frequencies --") (strL "nothing") [] = some [] ∧
    massC.collect (strL "word soup") [3] = some [3] ∧
    (coordC 2).collect (strL "text only") ⟨[], none⟩ = some ⟨[], none⟩ ∧
    hessC.collect (strL "      1             2") (HState.rows []) =
      some (HState.rows []) ∧
    hessC.collect (strL " one\n") (HState.rows []) = none := by
  obtain ⟨h1, h2, h3, h4, h5, h6⟩ := C5_shape_mismatch_ignored_amended
  exact ⟨h1 _ _ (by decide), h2 _ _ _ (by decide), h3 _ _ (by decide),
    h4 2 _ _ (by decide), h5 _ _ (strL "1") (strL "2") [] (by decide)
      (by decide), h6 _ _ (by decide)⟩

/-- C6 counterexample: two complete hessian episodes in one section; after
the second episode is finalized, the first episode's 1x1 matrix `[[1.0]]`
is gone — `result()` holds only the second episode's `[[2.0]]`, because
`HessianParser.start_collecting` resets the accumulator. -/
theorem C6_hessian_second_episode_counterexample :
    runLines hessStep hessInit
        [strL " (Enter l716.exe)\n",
         strL " Force constants in Cartesian coordinates:\n",
         strL "      1  0.10D+01\n",
         strL " Force constants in internal coordinates:\n",
         strL " Force constants in Cartesian coordinates:\n",
         strL "      1  0.20D+01\n",
         strL " Force constants in internal coordinates:\n",
         strL " Leave Link  716\n"] =
      some ⟨false, ⟨false, HState.mat [[2]]⟩⟩ := by
  decide

/-- C6 (amended): only the geometry/coordinates collector accumulates
episodes: its `start_collecting` preserves the outer list and resets only
the episode buffer, and its `stop_collecting` appends the finished episode
whole, so episodes 1..k survive episode k+1.  The matrix (hessian) and
mass collectors instead reset their accumulator in `start_collecting`, so
only the most recent episode's result survives. -/
theorem C6_episode_lifecycle_amended :
    (∀ (A : ℚ) (st : CState), (coordC A).start st = ⟨st.outer, some []⟩) ∧
    (∀ (A : ℚ) (o : List (List (ℚ × ℚ × ℚ))) (cs : List (ℚ × ℚ × ℚ)),
      (coordC A).stop ⟨o, some cs⟩ = some ⟨o ++ [cs], some cs⟩) ∧
    (∀ st : HState, hessC.start st = HState.rows []) ∧
    (∀ s : List ℚ, massC.start s = []) :=
  ⟨fun _ _ => rfl, fun _ _ _ => rfl, fun _ => rfl, fun _ => rfl⟩

/-- C9: inside one section instance of link 202, every well-formed
activator-to-deactivator episode produces exactly one coordinate array —
one converted triple per matching data line (triples are 3-tuples, so the
array is N-by-3 with N the number of matching lines), converted by the
`from_angstrom` factor `A` at the moment of insertion — and the finished
array is appended whole to the outer list, which `result()` returns with
one entry per episode, in file order.  The second conjunct isolates the
finalization: `stop_collecting` appends the episode buffer as-is, so no
conversion happens at finalization.  The window is modelled from the
spec. -/
theorem C9_coordinate_episodes (A : ℚ) (enterL leaveL : Line)
    (eps : List Episode)
    (hent : enterMatch (strL "202") enterL = true)
    (hlv : leaveMatch (strL "202") leaveL = true)
    (heps : ∀ e ∈ eps, episodeOk e) :
    runLines (coordStepA A) coordInit
        (enterL :: ((eps.map episodeLines).flatten ++ [leaveL])) =
      some ⟨false, ⟨false, ⟨eps.map (coordEpVals A), finalCur A none eps⟩⟩⟩ ∧
    (∀ (o : List (List (ℚ × ℚ × ℚ))) (cs : List (ℚ × ℚ × ℚ)),
      (coordC A).stop ⟨o, some cs⟩ = some ⟨o ++ [cs], some cs⟩) := by
  constructor
  · have hent2 : coordStepA A enterL coordInit =
        some ⟨true, ⟨false, ⟨[], none⟩⟩⟩ :=
      step_enter (strL "202") true (some coordAct) (some coordDeact)
        (coordC A) ⟨false, ⟨[], none⟩⟩ enterL hent
    rw [runLines_cons_some _ _ _ _ _ hent2, runLines_append,
      run_coord_episodes A eps [] none heps, Option.some_bind]
    have hlv2 : coordStepA A leaveL
          ⟨true, ⟨false, ⟨[] ++ eps.map (coordEpVals A), finalCur A none eps⟩⟩⟩ =
        some ⟨false, ⟨false, ⟨[] ++ eps.map (coordEpVals A), finalCur A none eps⟩⟩⟩ :=
      step_leave (strL "202") true (some coordAct) (some coordDeact)
        (coordC A) _ true leaveL hlv
    rw [runLines_cons_some _ _ _ _ _ hlv2]
    simp [runLines]
  · intro o cs
    rfl

/-- C9 witness: one concrete episode (two atoms, one interleaved comment
line), conversion factor 2: the single produced array holds the two
converted triples in order. -/
theorem C9_coordinate_episodes_witness :
    runLines (coordStepA 2) coordInit
        (strL " (Enter l202.exe)\n" ::
          ((([⟨[strL " ---\n"],
              strL "                         Input orientation:\n",
              [strL "      1          8           0        1.5   2.5  3.5\n",
               strL " center text\n",
               strL "      2          1           0        0.5   0.25  -1.5\n"],
              strL "                    Distance matrix (angstroms):\n"⟩] :
            List Episode).map episodeLines).flatten ++
            [strL " Leave Link  202\n"])) =
      some ⟨false, ⟨false, ⟨[[(3, 5, 7), (1, mkRat 1 2, -3)]],
        some [(3, 5, 7), (1, mkRat 1 2, -3)]⟩⟩⟩ := by
  have h := C9_coordinate_episodes 2 (strL " (Enter l202.exe)\n")
    (strL " Leave Link  202\n")
    [⟨[strL " ---\n"],
      strL "                         Input orientation:\n",
      [strL "      1          8           0        1.5   2.5  3.5\n",
       strL " center text\n",
       strL "      2          1           0        0.5   0.25  -1.5\n"],
      strL "                    Distance matrix (angstroms):\n"⟩]
    (by decide) (by decide) (by decide)
  exact h.1.trans (by decide)
